import Mathlib

/-!
# Verification of the SUD-BedWatch scraper core (`scripts/scrape_sudhelpla.py`)

This file gives a shallow embedding of the extraction/normalization core of
the `SUDHelpLAScraper` class and proves the specified properties about it.

Embedding conventions:
* Python strings are Lean `String`s; character-level work uses `List Char`.
* Python regular-expression operations (`re.search`, `re.findall`, `re.sub`,
  `re.split`) are embedded as explicit backtracking matchers over `List Char`,
  written to reproduce the leftmost / greedy / lazy semantics of the concrete
  patterns appearing in the source.
* Python dicts are association lists (`List (String × _)`); `d[k] = v`
  replaces the entry in place when the key exists and appends otherwise,
  exactly like CPython dict assignment; iteration order is insertion order.
* Fallible document-tree accesses: `find(...)` returning `None` is `Option`;
  `get_text()` on a malformed node, which may raise, is `Except Unit String`.
  A Python `try ... except` block that mutates a dict is embedded in the
  `Except Record` monad whose error payload is the dict state at raise time,
  so the record boundary can return the partial result exactly as the code
  does.
-/

namespace SudBedwatch

/-- ASCII whitespace characters matched by Python's `\s` (ASCII subset) and
stripped by `str.strip()`. -/
def isPyWs (c : Char) : Bool :=
  c = ' ' || c = '\t' || c = '\n' || c = '\r' || c = '\x0b' || c = '\x0c'

/-- ASCII lowercasing, as Python `str.lower()` acts on the ASCII inputs this
scraper handles. -/
def asciiLower (c : Char) : Char :=
  if 'A' ≤ c && c ≤ 'Z' then Char.ofNat (c.toNat + 32) else c

/-- ASCII uppercasing, as Python `str.upper()` acts on ASCII inputs. -/
def asciiUpper (c : Char) : Char :=
  if 'a' ≤ c && c ≤ 'z' then Char.ofNat (c.toNat - 32) else c

/-- The characters of a string, lowercased (`s.lower()`). -/
def lowerChars (s : String) : List Char :=
  s.data.map asciiLower

/-- Repack a character list as a string. -/
def mkStr (cs : List Char) : String := ⟨cs⟩

/-- Python `needle in hay` on strings: contiguous-substring test. -/
def listContains (hay needle : List Char) : Bool :=
  needle.isPrefixOf hay ||
    match hay with
    | [] => false
    | _ :: t => listContains t needle

/-- Worker for `removeAll`.  The fuel only bounds the recursion depth (each
step consumes at least one character of the haystack, so `hay.length + 1`
fuel is always sufficient); it never changes the computed value. -/
def removeAllAux (fuel : Nat) (hay needle : List Char) : List Char :=
  match fuel, hay with
  | 0, hay => hay
  | _ + 1, [] => []
  | fuel + 1, c :: t =>
    if needle.isPrefixOf (c :: t) && !needle.isEmpty then
      removeAllAux fuel ((c :: t).drop needle.length) needle
    else
      c :: removeAllAux fuel t needle

/-- Python `hay.replace(needle, "")` for a nonempty needle: remove all
non-overlapping occurrences, scanning left to right.  (The needle is `"AM"`
or `"PM"` here, never empty.) -/
def removeAll (hay needle : List Char) : List Char :=
  removeAllAux (hay.length + 1) hay needle

/-- Python `s.split(':')`: split at every colon; always at least one piece. -/
def splitColon (cs : List Char) : List (List Char) :=
  match cs with
  | [] => [[]]
  | c :: t =>
    let r := splitColon t
    if c = ':' then [] :: r
    else
      match r with
      | [] => [[c]]
      | p :: ps => (c :: p) :: ps

/-- Python `int(s)` restricted to the shapes reachable here: optional sign
followed by one or more ASCII digits (PEP 515 underscore grouping is not
modelled; no input in this program can contain it). `none` models the
`ValueError` raise. -/
def parsePyInt (cs : List Char) : Option Int :=
  let digitsToNat (ds : List Char) : Nat :=
    ds.foldl (fun acc c => acc * 10 + (c.toNat - '0'.toNat)) 0
  match cs with
  | '-' :: ds =>
    if !ds.isEmpty && ds.all (fun c => '0' ≤ c && c ≤ '9') then
      some (-(digitsToNat ds : Int))
    else none
  | '+' :: ds =>
    if !ds.isEmpty && ds.all (fun c => '0' ≤ c && c ≤ '9') then
      some (digitsToNat ds : Int)
    else none
  | ds =>
    if !ds.isEmpty && ds.all (fun c => '0' ≤ c && c ≤ '9') then
      some (digitsToNat ds : Int)
    else none

/-- Python `f"{h:02d}"`: zero-pad to overall width 2 (the sign counts toward
the width). -/
def formatHour02 (h : Int) : String :=
  if 0 ≤ h && h < 10 then "0" ++ toString h else toString h

/-- Embeds `time_str.upper()` followed by `re.sub(r'\s+', '', ·)` (line 219 of the
source): uppercase, then delete every whitespace character. -/
def stripUpper (s : String) : String :=
  mkStr ((s.data.map asciiUpper).filter (fun c => !isPyWs c))

/-- The body of one branch of `convert_to_24h` after the `AM`/`PM` substring
test: delete the suffix marker everywhere, default `:00` minutes, split at
the colon into exactly two parts, parse the hour, adjust it, and format.
`none` models any exception inside the `try` block (bad split arity or a
non-integer hour). -/
def convertBranch (cs : List Char) (marker : List Char) (isAM : Bool) :
    Option String :=
  let time_part := removeAll cs marker
  let time_part :=
    if listContains time_part [':'] then time_part else time_part ++ [':', '0', '0']
  match splitColon time_part with
  | [h, m] =>
    match parsePyInt h with
    | some hour =>
      let hour :=
        if isAM then (if hour = 12 then 0 else hour)
        else (if hour ≠ 12 then hour + 12 else hour)
      some (formatHour02 hour ++ ":" ++ mkStr m)
    | none => none
  | _ => none

/-- Embeds `SUDHelpLAScraper.convert_to_24h` (source lines 215–243).  The bare
`except` returns `time_str`, which at every possible raise point has already
been rebound (line 219) to the whitespace-stripped uppercased form. -/
def convert_to_24h (time_str : String) : String :=
  let t := stripUpper time_str
  let cs := t.data
  if listContains cs ['A', 'M'] then
    match convertBranch cs ['A', 'M'] true with
    | some r => r
    | none => t
  else if listContains cs ['P', 'M'] then
    match convertBranch cs ['P', 'M'] false with
    | some r => r
    | none => t
  else t

/-! ## Weekly-schedule model

A per-day `{'open': o, 'close': c}` dict and the outer day-keyed dict are
both association lists with CPython dict assignment semantics. -/

/-- The inner `{'open': …, 'close': …}` dict of a day. -/
abbrev Entry := List (String × String)

/-- Construct the two-key inner dict exactly as every construction site in
the source does. -/
def mkOC (o c : String) : Entry := [("open", o), ("close", c)]

/-- A weekly schedule: day name → inner dict, in dict insertion order. -/
abbrev Sched := List (String × Entry)

/-- Python dict assignment `m[k] = v`: replace in place if the key exists,
else append. -/
def dictSet {α : Type} (m : List (String × α)) (k : String) (v : α) :
    List (String × α) :=
  if m.any (fun p => p.1 = k) then
    m.map (fun p => if p.1 = k then (k, v) else p)
  else
    m ++ [(k, v)]

/-- Python dict lookup `m[k]` / `m.get(k)`: first entry with the key. -/
def dictGet {α : Type} (m : List (String × α)) (k : String) : Option α :=
  match m with
  | [] => none
  | p :: rest => if p.1 = k then some p.2 else dictGet rest k

/-- The seven canonical day names, in the order of the dict-comprehension
list on lines 132–133 / 180–181 of the source (Sunday first). -/
def days7 : List String :=
  ["sunday", "monday", "tuesday", "wednesday", "thursday", "friday", "saturday"]

/-- Embeds `hours = {day: {'open': '', 'close': ''} for day in [...]}`. -/
def initHours : Sched := days7.map (fun d => (d, mkOC "" ""))

/-! ## The `24/7` sentinel of `parse_hours` (source line 144)

`re.search(r'24/?7|24\s*hours', hours_text, re.IGNORECASE)` over the
lowercased character list. -/

/-- Does `24/?7|24\s*hours` match at the head of the (lowercased) list? -/
def match24At (cs : List Char) : Bool :=
  match cs with
  | '2' :: '4' :: rest =>
    (match rest with
     | '/' :: '7' :: _ => true
     | '7' :: _ => true
     | _ => false) ||
    ("hours".data.isPrefixOf (rest.dropWhile isPyWs))
  | _ => false

/-- Embeds `re.search` existence scan for the `24/7` pattern. -/
def search24 (cs : List Char) : Bool :=
  match cs with
  | [] => false
  | _ :: t => match24At cs || search24 t

/-! ## The day-range regex of `parse_hours` (source line 150)

`(Mon|…|Sunday)(?:\s*-\s*(Mon|…|Sunday))?\s*:?\s*(\d{1,2}:\d{2}\s*[AP]M?)`
`\s*-\s*(\d{1,2}:\d{2}\s*[AP]M?)` with `re.IGNORECASE`, consumed through
`re.findall`.  Embedded as an explicit backtracking matcher: ordered
alternation for the day groups, greedy maximal-munch for `\s*`, `:?`, `M?`
and `\d{1,2}` (justified because every such optional/greedy token is
followed by a requirement its own characters can never satisfy, so
backtracking over it cannot change the outcome). -/

/-- One tuple produced by `re.findall`: a non-participating group yields
`""`, exactly as Python reports it. -/
structure RangeMatch where
  d1 : String
  d2 : String
  t1 : String
  t2 : String
deriving DecidableEq, Repr

/-- Case-insensitive literal match at the head; returns the original
consumed characters and the remainder. -/
def ciMatchStr (pat cs : List Char) : Option (List Char × List Char) :=
  match pat, cs with
  | [], rest => some ([], rest)
  | p :: ps, c :: cs' =>
    if asciiLower c = asciiLower p then
      match ciMatchStr ps cs' with
      | some (o, r) => some (c :: o, r)
      | none => none
    else none
  | _ :: _, [] => none

/-- The 14 day spellings in the order they appear in the alternation. -/
def dayAlts : List String :=
  ["Mon", "Tue", "Wed", "Thu", "Fri", "Sat", "Sun",
   "Monday", "Tuesday", "Wednesday", "Thursday", "Friday", "Saturday", "Sunday"]

/-- Ordered alternation with backtracking into the continuation: try each
alternative left to right; if the continuation fails, fall through to the
next alternative, as the regex engine does. -/
def tryAlts {α : Type} (alts : List String) (cs : List Char)
    (k : List Char → List Char → Option α) : Option α :=
  match alts with
  | [] => none
  | a :: rest =>
    (match ciMatchStr a.data cs with
     | some (orig, r) => k orig r
     | none => none) <|> tryAlts rest cs k

/-- Embeds `\s*-\s*`: maximal whitespace, a dash, maximal whitespace. -/
def matchDash (cs : List Char) : Option (List Char) :=
  match cs.dropWhile isPyWs with
  | '-' :: r => some (r.dropWhile isPyWs)
  | _ => none

/-- Embeds `\s*:?\s*` (always succeeds). -/
def matchColonOpt (cs : List Char) : List Char :=
  match cs.dropWhile isPyWs with
  | ':' :: r => r.dropWhile isPyWs
  | r => r

/-- The tail of the time group `\s*[AP]M?` (case-insensitive), given the
already-captured prefix: captured whitespace, one of `A`/`P`, optional `M`. -/
def finishTime (pre rest : List Char) : Option (List Char × List Char) :=
  let ws := rest.takeWhile isPyWs
  match rest.dropWhile isPyWs with
  | c :: rest2 =>
    if asciiLower c = 'a' || asciiLower c = 'p' then
      match rest2 with
      | m :: rest3 =>
        if asciiLower m = 'm' then some (pre ++ ws ++ [c, m], rest3)
        else some (pre ++ ws ++ [c], rest2)
      | [] => some (pre ++ ws ++ [c], [])
    else none
  | [] => none

/-- ASCII digit test (`\d` on the inputs this scraper sees). -/
def isDigit (c : Char) : Bool := '0' ≤ c && c ≤ '9'

/-- The time group `(\d{1,2}:\d{2}\s*[AP]M?)`, case-insensitive.  The
regex tries the greedy two-digit hour first and backtracks to one digit;
the two attempts are disjoint on input shape (the character after the first
digit is a colon in one and a digit in the other), so they merge into a
single ordered match. -/
def matchTime (cs : List Char) : Option (List Char × List Char) :=
  match cs with
  | d1 :: rest1 =>
    if isDigit d1 then
      match rest1 with
      | ':' :: m1 :: m2 :: rest2 =>
        if isDigit m1 && isDigit m2 then
          finishTime [d1, ':', m1, m2] rest2
        else none
      | d2 :: ':' :: m1 :: m2 :: rest2 =>
        if isDigit d2 && isDigit m1 && isDigit m2 then
          finishTime [d1, d2, ':', m1, m2] rest2
        else none
      | _ => none
    else none
  | [] => none

/-- Embeds `\s*:?\s*(\d{1,2}:\d{2}\s*[AP]M?)\s*-\s*(\d{1,2}:\d{2}\s*[AP]M?)`:
the common tail after the day group(s). -/
def matchTimes (cs : List Char) : Option ((List Char × List Char) × List Char) :=
  match matchTime (matchColonOpt cs) with
  | none => none
  | some (t1, r1) =>
    match matchDash r1 with
    | none => none
    | some r2 =>
      match matchTime r2 with
      | none => none
      | some (t2, r3) => some ((t1, t2), r3)

/-- Attempt the whole day-range pattern at the current position, returning
the four captured groups and the remainder after the match. -/
def matchRangeAt (cs : List Char) : Option (RangeMatch × List Char) :=
  tryAlts dayAlts cs (fun d1 rest =>
    (match matchDash rest with
     | some r2 =>
       tryAlts dayAlts r2 (fun d2 rest2 =>
         match matchTimes rest2 with
         | some ((t1, t2), r) =>
           some (⟨mkStr d1, mkStr d2, mkStr t1, mkStr t2⟩, r)
         | none => none)
     | none => none) <|>
    (match matchTimes rest with
     | some ((t1, t2), r) => some (⟨mkStr d1, "", mkStr t1, mkStr t2⟩, r)
     | none => none))

/-- Embeds `re.findall` over the day-range pattern: scan left to right, restart
after each (non-overlapping) match.  Fuel bounds the recursion depth (every
step consumes at least one character, so `cs.length + 1` is sufficient). -/
def findRangesAux (fuel : Nat) (cs : List Char) : List RangeMatch :=
  match fuel, cs with
  | 0, _ => []
  | _ + 1, [] => []
  | fuel + 1, c :: t =>
    match matchRangeAt (c :: t) with
    | some (m, rest) => m :: findRangesAux fuel rest
    | none => findRangesAux fuel t

/-- All day-range matches of a text. -/
def findRanges (cs : List Char) : List RangeMatch :=
  findRangesAux (cs.length + 1) cs

/-! ## `parse_hours` (source lines 130–176) -/

/-- The `day_mapping` dict of `parse_hours` (lines 152–157), in insertion
order. -/
def day_mapping : List (String × String) :=
  [("mon", "monday"), ("tue", "tuesday"), ("wed", "wednesday"),
   ("thu", "thursday"), ("fri", "friday"), ("sat", "saturday"),
   ("sun", "sunday"),
   ("monday", "monday"), ("tuesday", "tuesday"), ("wednesday", "wednesday"),
   ("thursday", "thursday"), ("friday", "friday"), ("saturday", "saturday"),
   ("sunday", "sunday")]

/-- Embeds `day_mapping.get(s, s)`. -/
def dayMapGet (s : String) : String := (dictGet day_mapping s).getD s

/-- Embeds `day_list = list(day_mapping.values())`: fourteen entries, Monday first;
`list.index` therefore resolves each day name to its Monday-based index. -/
def day_list : List String := day_mapping.map Prod.snd

/-- Python `s.lower()`. -/
def pyLower (s : String) : String := mkStr (lowerChars s)

/-- Apply one `findall` tuple to the schedule (the body of the `for match`
loop, lines 159–174). -/
def applyMatch (hours : Sched) (m : RangeMatch) : Sched :=
  let start_day := dayMapGet (pyLower m.d1)
  let end_day := if m.d2.isEmpty then start_day else dayMapGet (pyLower m.d2)
  let open_24h := convert_to_24h m.t1
  let close_24h := convert_to_24h m.t2
  if day_list.contains start_day && day_list.contains end_day then
    let start_idx := day_list.indexOf start_day
    let end_idx := day_list.indexOf end_day
    (List.range' start_idx (end_idx + 1 - start_idx)).foldl
      (fun h i => dictSet h (day_list.getD i "") (mkOC open_24h close_24h)) hours
  else hours

/-- Embeds `SUDHelpLAScraper.parse_hours` (source lines 130–176). -/
def parse_hours (hours_text : String) : Sched :=
  let hours := initHours
  if hours_text.isEmpty then hours
  else if search24 (lowerChars hours_text) then
    hours.map (fun p => (p.1, mkOC "00:00" "23:59"))
  else
    (findRanges hours_text.data).foldl applyMatch hours

/-! ## `parse_hours_table` (source lines 178–213)

The table argument is an arbitrary document node.  `find_all('tr')` on a
malformed node raises (modelled by `Except.error`), and `get_text` on a
malformed cell raises (each cell is `Except Unit String`).  Everything else
in the body is pure string work that cannot raise, and both `get_text`
comprehensions run before the first schedule assignment, so the embedding
keeps the source's operation order exactly. -/

/-- A cell whose `get_text(strip=True)` either yields a string or raises. -/
abbrev Cell := Except Unit String

/-- A table node: `find_all('tr')` yields the rows (each a list of cells
from `find_all(['th', 'td'])`) or raises. -/
structure HTable where
  rows : Except Unit (List (List Cell))

/-- The list comprehension `[c.get_text(strip=True) for c in cells]`: the
first raising cell aborts the whole comprehension. -/
def cellTexts (row : List Cell) : Except Unit (List String) :=
  match row with
  | [] => Except.ok []
  | c :: rest =>
    match c with
    | Except.error e => Except.error e
    | Except.ok s =>
      match cellTexts rest with
      | Except.error e => Except.error e
      | Except.ok ss => Except.ok (s :: ss)

/-- The `day_mapping` dict of `parse_hours_table` (lines 193–196). -/
def table_day_mapping : List (String × String) :=
  [("sun", "sunday"), ("mon", "monday"), ("tue", "tuesday"),
   ("wed", "wednesday"), ("thu", "thursday"), ("fri", "friday"),
   ("sat", "saturday")]

/-- The time group `(\d{1,2}:\d{2}[AP]M?)` of the table regex (line 205):
case-sensitive and with no internal whitespace. -/
def matchTimeT (cs : List Char) : Option (List Char × List Char) :=
  let finish := fun (pre rest : List Char) =>
    match rest with
    | c :: rest2 =>
      if c = 'A' || c = 'P' then
        match rest2 with
        | 'M' :: rest3 => some (pre ++ [c, 'M'], rest3)
        | _ => some (pre ++ [c], rest2)
      else none
    | [] => none
  match cs with
  | d1 :: rest1 =>
    if isDigit d1 then
      match rest1 with
      | ':' :: m1 :: m2 :: rest2 =>
        if isDigit m1 && isDigit m2 then finish [d1, ':', m1, m2] rest2
        else none
      | d2 :: ':' :: m1 :: m2 :: rest2 =>
        if isDigit d2 && isDigit m1 && isDigit m2 then
          finish [d1, d2, ':', m1, m2] rest2
        else none
      | _ => none
    else none
  | [] => none

/-- Embeds `(\d{1,2}:\d{2}[AP]M?)\s*-\s*(\d{1,2}:\d{2}[AP]M?)` at the current
position. -/
def matchRangeTAt (cs : List Char) : Option (List Char × List Char) :=
  match matchTimeT cs with
  | none => none
  | some (t1, r1) =>
    match matchDash r1 with
    | none => none
    | some r2 =>
      match matchTimeT r2 with
      | none => none
      | some (t2, _) => some (t1, t2)

/-- Embeds `re.search` scan for the table time-range pattern (fuelled; every step
consumes one character). -/
def searchTimeRangeAux (fuel : Nat) (cs : List Char) :
    Option (List Char × List Char) :=
  match fuel, cs with
  | 0, _ => none
  | _ + 1, [] => none
  | fuel + 1, c :: t =>
    match matchRangeTAt (c :: t) with
    | some r => some r
    | none => searchTimeRangeAux fuel t

/-- First `<time> - <time>` occurrence in a cell value. -/
def searchTimeRange (cs : List Char) : Option (List Char × List Char) :=
  searchTimeRangeAux (cs.length + 1) cs

/-- The body of the `for header, time_cell in zip(headers, times)` loop
(lines 198–209). -/
def procCell (hours : Sched) (p : String × String) : Sched :=
  let header := p.1
  let time_cell := p.2
  match dictGet table_day_mapping (pyLower header) with
  | none => hours
  | some day_key =>
    if listContains (lowerChars time_cell) "closed".data then
      dictSet hours day_key (mkOC "Closed" "Closed")
    else
      match searchTimeRange time_cell.data with
      | some (t1, t2) =>
        dictSet hours day_key
          (mkOC (convert_to_24h (mkStr t1)) (convert_to_24h (mkStr t2)))
      | none => hours

/-- Embeds `SUDHelpLAScraper.parse_hours_table` (source lines 178–213).  Both cell
comprehensions run before any schedule assignment, so every reachable
exception leaves the schedule at its initial value, which the `except`
branch then returns. -/
def parse_hours_table (table : HTable) : Sched :=
  let hours := initHours
  match table.rows with
  | Except.error _ => hours
  | Except.ok rows =>
    if 2 ≤ rows.length then
      match cellTexts (rows.getD 0 []), cellTexts (rows.getD 1 []) with
      | Except.ok headers, Except.ok times =>
        (headers.zip times).foldl procCell hours
      | _, _ => hours
    else hours

/-! ## Field post-processors of `parse_agency_data` -/

/-- Embeds `re.sub(r'^\d+\.\d+\s+miles\s*', '', s)` (line 293): strip a leading
`<digits>.<digits> miles` distance prefix, if present, else return the
string unchanged. -/
def stripMiles (s : String) : String :=
  let cs := s.data
  let ds := cs.takeWhile isDigit
  if ds.isEmpty then s
  else
    match cs.drop ds.length with
    | '.' :: r1 =>
      let ds2 := r1.takeWhile isDigit
      if ds2.isEmpty then s
      else
        let r2 := r1.drop ds2.length
        let ws := r2.takeWhile isPyWs
        if ws.isEmpty then s
        else
          let r3 := r2.drop ws.length
          if "miles".data.isPrefixOf r3 then
            mkStr ((r3.drop 5).dropWhile isPyWs)
          else s
    | _ => s

/-- Embeds `\(?\d{3}\)?[\s\-]?\d{3}[\s\-]?\d{4}` at the current position
(line 301).  Every optional token's character class is disjoint from what
must follow it, so maximal munch is exact. -/
def matchPhoneAt (cs : List Char) : Option (List Char) :=
  let takeOpt := fun (p : Char → Bool) (cs : List Char) =>
    match cs with
    | c :: t => if p c then (([c] : List Char), t) else ([], cs)
    | [] => ([], cs)
  let takeDigits := fun (n : Nat) (cs : List Char) =>
    let ds := cs.take n
    if ds.length = n && ds.all isDigit then some (ds, cs.drop n) else none
  let (p1, r1) := takeOpt (fun c => c = '(') cs
  match takeDigits 3 r1 with
  | none => none
  | some (d1, r2) =>
    let (p2, r3) := takeOpt (fun c => c = ')') r2
    let (s1, r4) := takeOpt (fun c => isPyWs c || c = '-') r3
    match takeDigits 3 r4 with
    | none => none
    | some (d2, r5) =>
      let (s2, r6) := takeOpt (fun c => isPyWs c || c = '-') r5
      match takeDigits 4 r6 with
      | none => none
      | some (d3, _) => some (p1 ++ d1 ++ p2 ++ s1 ++ d2 ++ s2 ++ d3)

/-- Embeds `re.search` scan for the phone pattern; returns the matched substring
(`match.group()`). -/
def phoneSearchAux (fuel : Nat) (cs : List Char) : Option String :=
  match fuel, cs with
  | 0, _ => none
  | _ + 1, [] => none
  | fuel + 1, c :: t =>
    match matchPhoneAt (c :: t) with
    | some m => some (mkStr m)
    | none => phoneSearchAux fuel t

/-- First North-American phone-shaped substring of a text. -/
def phoneSearch (s : String) : Option String :=
  phoneSearchAux (s.data.length + 1) s.data

/-- After the literal `Open Intake Appts:`, the lazy gap `.*?` (which cannot
cross a newline) followed by the greedy first digit run `(\d+)`. -/
def apptsAfter (cs : List Char) : Option (List Char) :=
  match cs with
  | [] => none
  | c :: t =>
    if isDigit c then some (c :: t.takeWhile isDigit)
    else if c = '\n' then none
    else apptsAfter t

/-- Embeds `re.search(r'Open Intake Appts:.*?(\d+)', s)` (line 340): at each
occurrence of the literal, left to right, look for a digit run before the
next newline; the first occurrence that has one wins. -/
def findApptsAux (fuel : Nat) (cs : List Char) : Option String :=
  match fuel, cs with
  | 0, _ => none
  | _ + 1, [] => none
  | fuel + 1, c :: t =>
    if "Open Intake Appts:".data.isPrefixOf (c :: t) then
      match apptsAfter ((c :: t).drop 18) with
      | some ds => some (mkStr ds)
      | none => findApptsAux fuel t
    else findApptsAux fuel t

/-- The captured appointment count, as a string (`match.group(1)`). -/
def findAppts (s : String) : Option String :=
  findApptsAux (s.data.length + 1) s.data

/-- Uppercase ASCII letter test (the `[A-Z]` class). -/
def isUpperAZ (c : Char) : Bool := 'A' ≤ c && c ≤ 'Z'

/-- Embeds `re.split(r'(?=[A-Z])', s)`: a new piece begins before every uppercase
letter; the piece before the first uppercase letter may be empty. -/
def splitCaps (cs : List Char) : List (List Char) :=
  match cs with
  | [] => [[]]
  | c :: rest =>
    match splitCaps rest with
    | [] => [[c]]
    | chunk :: more =>
      if isUpperAZ c then [] :: (c :: chunk) :: more
      else (c :: chunk) :: more

/-- Python `s.strip()`. -/
def pyStrip (s : String) : String :=
  mkStr (((s.data.dropWhile isPyWs).reverse.dropWhile isPyWs).reverse)

/-- Lines 357–359: split at capital-letter boundaries, strip each piece,
drop empties, rejoin with `"; "`. -/
def populationsServed (s : String) : String :=
  let populations := (splitCaps s.data).map (fun p => pyStrip (mkStr p))
  String.intercalate "; " (populations.filter (fun p => !p.isEmpty))

/-! ## `parse_agency_data` (source lines 245–375)

The agency sub-tree is modelled with one `Option` layer per `find` call
(`None` = element absent) and `Except Unit String` for each `get_text` call
(which may raise on a malformed node).  The whole body sits in a single
`try` block, embedded as `Except Record`: the error payload is the record
state at the moment of the raise, which the `except` branch returns. -/

/-- A text read that may raise. -/
abbrev Txt := Except Unit String

/-- The flat output record: a Python dict in insertion order. -/
abbrev Record := List (String × String)

/-- The `listing` div's sub-elements (lines 273–326). -/
structure ListingDiv where
  /-- Embeds `find('strong')` → `get_text(strip=True)` -/
  strong : Option Txt
  /-- Embeds `find('div', class_='secondname')` → `find('span')` → `get_text` -/
  secondname : Option (Option Txt)
  /-- Embeds `find('div', class_='address')` → `get_text(strip=True)` -/
  address : Option Txt
  /-- Embeds `find('div', class_='phone')` → `get_text(strip=True)` -/
  phone : Option Txt
  /-- Embeds `find('div', class_='web')` → `find('a')` → `get('href', '')` -/
  web : Option (Option (Option String))
  /-- Embeds `find('div', class_='wheel-access')` → `get_text(strip=True)` -/
  wheel : Option Txt
  /-- Embeds `find('div', class_='hours')` → `find('table')` -/
  hoursTable : Option (Option HTable)

/-- One agency sub-tree (the argument of `parse_agency_data`). -/
structure AgencyDiv where
  /-- Embeds `find('div', class_='listing')` -/
  listing : Option ListingDiv
  /-- Embeds `find('div', class_='available-beds')` → `get_text(strip=True)` -/
  beds : Option Txt
  /-- Embeds `find('div', class_='intake-info')` → (`get_text()`, `find('table')`) -/
  intake : Option (Txt × Option HTable)
  /-- Embeds `find('div', class_='service-type')` → `get_text(strip=True)` -/
  serviceType : Option Txt
  /-- Embeds `find('div', class_='languages-spoken')` → `get_text(strip=True)` -/
  languages : Option Txt
  /-- Embeds `find('div', class_='last-update')` → `get_text(strip=True)` -/
  lastUpdate : Option Txt

/-- The initial record (lines 249–269): eleven identity/operational fields,
then per day the four hour keys, all empty. -/
def initRecord : Record :=
  [("agency_name", ""), ("agency_name_secondary", ""), ("agency_address", ""),
   ("agency_phone", ""), ("agency_website", ""),
   ("agency_wheelchair_access", ""), ("available_beds", ""),
   ("intake_open_appointments", ""), ("populations_served", ""),
   ("languages_spoken", ""), ("last_updated", "")] ++
  days7.foldl (fun acc d =>
    acc ++ [("agency_hours_" ++ d ++ "_open", ""),
            ("agency_hours_" ++ d ++ "_close", ""),
            ("intake_hours_" ++ d ++ "_open", ""),
            ("intake_hours_" ++ d ++ "_close", "")]) []

/-- The fixed key schema of every record. -/
def fixedKeys : List String := initRecord.map Prod.fst

/-- One guarded text extraction: element absent → skip, text raises →
propagate with the current record, else post-process and assign. -/
def stepTxt (t? : Option Txt) (d : Record) (f : String → Record) :
    Except Record Record :=
  match t? with
  | none => Except.ok d
  | some (Except.ok s) => Except.ok (f s)
  | some (Except.error _) => Except.error d

/-- The `for day, times in sched.items()` loops writing the 14 hour keys of
one schedule (lines 324–326 and 348–350).  A missing `'open'`/`'close'` key
would raise `KeyError`, aborting with the record as mutated so far. -/
def applySched (pre : String) (sched : Sched) (d : Record) :
    Except Record Record :=
  match sched with
  | [] => Except.ok d
  | p :: rest =>
    match dictGet p.2 "open" with
    | none => Except.error d
    | some o =>
      let d' := dictSet d (pre ++ p.1 ++ "_open") o
      match dictGet p.2 "close" with
      | none => Except.error d'
      | some c => applySched pre rest (dictSet d' (pre ++ p.1 ++ "_close") c)

/-- The `listing` block of the `try` body (lines 272–326), in source
order. -/
def pa_listing (l : ListingDiv) (d : Record) : Except Record Record := do
  let d ← stepTxt l.strong d (fun s => dictSet d "agency_name" s)
  let d ← (match l.secondname with
    | some (some (Except.ok s)) =>
      Except.ok (dictSet d "agency_name_secondary" s)
    | some (some (Except.error _)) => Except.error d
    | _ => Except.ok d)
  let d ← stepTxt l.address d
    (fun s => dictSet d "agency_address" (stripMiles s))
  let d ← stepTxt l.phone d (fun s =>
    match phoneSearch s with
    | some ph => dictSet d "agency_phone" ph
    | none => d)
  let d := (match l.web with
    | some (some href?) => dictSet d "agency_website" (href?.getD "")
    | _ => d)
  let d ← stepTxt l.wheel d (fun s =>
    dictSet d "agency_wheelchair_access"
      (if listContains (lowerChars s) "yes".data then "Yes" else "No"))
  match l.hoursTable with
  | some (some tbl) => applySched "agency_hours_" (parse_hours_table tbl) d
  | _ => Except.ok d

/-- The intake block (lines 335–350). -/
def pa_intake (t : Txt) (tbl? : Option HTable) (d : Record) :
    Except Record Record := do
  let d ← (match t with
    | Except.ok s =>
      Except.ok (match findAppts s with
        | some n => dictSet d "intake_open_appointments" n
        | none => d)
    | Except.error _ => Except.error d)
  match tbl? with
  | some tbl => applySched "intake_hours_" (parse_hours_table tbl) d
  | none => Except.ok d

/-- One guarded block on an optional sub-element: absent → skip, present →
run its extraction. -/
def optStep {β : Type} (x : Option β) (d : Record)
    (f : β → Record → Except Record Record) : Except Record Record :=
  match x with
  | none => Except.ok d
  | some b => f b d

/-- The whole `try` body of `parse_agency_data` (lines 271–370). -/
def pa_body (a : AgencyDiv) (d : Record) : Except Record Record := do
  let d ← optStep a.listing d pa_listing
  let d ← stepTxt a.beds d (fun s => dictSet d "available_beds" s)
  let d ← optStep a.intake d (fun p d => pa_intake p.1 p.2 d)
  let d ← stepTxt a.serviceType d
    (fun s => dictSet d "populations_served" (populationsServed s))
  let d ← stepTxt a.languages d (fun s => dictSet d "languages_spoken" s)
  stepTxt a.lastUpdate d (fun s => dictSet d "last_updated" s)

/-- Embeds `SUDHelpLAScraper.parse_agency_data` (source lines 245–375): run the
`try` body from the fully-initialized record; the `except` branch returns
the record as mutated up to the raise. -/
def parse_agency_data (a : AgencyDiv) : Record :=
  match pa_body a initRecord with
  | Except.ok d => d
  | Except.error d => d

/-- The agency sub-tree in which every optional sub-element is absent. -/
def emptyAgency : AgencyDiv :=
  ⟨none, none, none, none, none, none⟩

/-! ## `extract_service_types` (source lines 39–128) -/

/-- One taxonomy row. -/
structure Service where
  category : String
  service_code : String
  service_name : String
  description : String
deriving DecidableEq, Repr

/-- The dedup key (line 123). -/
def serviceKey (s : Service) : String × String := (s.category, s.service_name)

/-- A `span.fa.fa-question-circle` tooltip node. -/
structure Tooltip where
  /-- Embeds `get('title')` -/
  title : Option String
  /-- Embeds `get('data-bs-original-title')` -/
  dataOrig : Option String
  /-- Embeds `get('aria-label', '')` (`none` → default `''`) -/
  ariaLabel : Option String
  /-- Embeds `tooltip.parent` → `find('label')` → `get_text(strip=True)` -/
  parentLabel : Option (Option String)

/-- A checkbox input; `get('id', '')` defaults to the empty string. -/
structure Checkbox where
  id : String

/-- The `accordion-collapse` content of one accordion item. -/
structure Collapse where
  /-- Embeds `find_all('span', class_='fa fa-question-circle')`, document order -/
  tooltips : List Tooltip
  /-- Embeds `find_all('input', type='checkbox')`, document order -/
  checkboxes : List Checkbox
  /-- label nodes as (`for` attribute, `get_text(strip=True)`) pairs,
  document order; `find('label', {'for': id})` is the first match -/
  labels : List (String × String)

/-- One `accordion-item`. -/
structure AccordionItem where
  /-- Embeds `find('h2', class_='accordion-header')` → `find('button')` →
  `get_text(strip=True)` -/
  headerButton : Option (Option String)
  /-- Embeds `find('div', class_='accordion-collapse')` -/
  collapse : Option Collapse

/-- The document as seen by `extract_service_types`: `none` models a
missing `filterContainer` or `accordion` container. -/
structure TaxDoc where
  accordionItems : Option (List AccordionItem)

/-- Python `s.rstrip(':')`: strip all trailing colons. -/
def rstripColon (s : String) : String :=
  mkStr ((s.data.reverse.dropWhile (fun c => c = ':')).reverse)

/-- Line 78–80: `tooltip.get('title') or tooltip.get('data-bs-original-title')
or tooltip.get('aria-label', '')` — Python `or` falls through on `None`
*and* on the empty string. -/
def tooltipDescription (t : Tooltip) : String :=
  match t.title with
  | some s =>
    if !s.isEmpty then s
    else
      match t.dataOrig with
      | some s2 => if !s2.isEmpty then s2 else t.ariaLabel.getD ""
      | none => t.ariaLabel.getD ""
  | none =>
    match t.dataOrig with
    | some s2 => if !s2.isEmpty then s2 else t.ariaLabel.getD ""
    | none => t.ariaLabel.getD ""

/-- The `tooltip_descriptions` dict of one section (lines 73–88): keyed by
full label text; a later tooltip with the same label text overwrites the
earlier description. -/
def tooltipDescriptions (ts : List Tooltip) : List (String × String) :=
  ts.foldl (fun m t =>
    match t.parentLabel with
    | some (some labelText) => dictSet m labelText (tooltipDescription t)
    | _ => m) []

/-- Embeds `\s+\(([^)]+)\)$` anchored at the end of the remainder: at least one
whitespace character, an opening parenthesis, a nonempty run without `)`,
a closing parenthesis, end of string. -/
def restNameCode (r : List Char) : Option (List Char) :=
  let ws := r.takeWhile isPyWs
  if ws.isEmpty then none
  else
    match r.drop ws.length with
    | '(' :: r2 =>
      let code := r2.takeWhile (fun c => c ≠ ')')
      if code.isEmpty then none
      else
        match r2.drop code.length with
        | [')'] => some code
        | _ => none
    | _ => none

/-- Embeds `re.search(r'^(.+?)\s+\(([^)]+)\)$', s)` (line 104): the lazy `(.+?)`
takes the shortest nonempty prefix whose remainder fits
`\s+\(([^)]+)\)$`. -/
def matchNameCodeAux (acc rest : List Char) : Option (List Char × List Char) :=
  match rest with
  | [] => none
  | c :: r =>
    match restNameCode r with
    | some code => some ((acc ++ [c]), code)
    | none => matchNameCodeAux (acc ++ [c]) r

/-- Split a label into `(service_name, service_code)` (lines 104–110):
matched groups are stripped; a non-matching label is the whole name with an
empty code. -/
def splitServiceText (full : String) : String × String :=
  match matchNameCodeAux [] full.data with
  | some (n, c) => (pyStrip (mkStr n), pyStrip (mkStr c))
  | none => (full, "")

/-- Embeds `collapse.find('label', {'for': checkbox_id})`: first label whose
`for` attribute equals the id. -/
def findLabelFor (labels : List (String × String)) (id : String) :
    Option String :=
  dictGet labels id

/-- The per-checkbox loop of one section (lines 91–117), producing the raw
(pre-dedup) entries of that section. -/
def svcFromCollapse (category : String) (col : Collapse) : List Service :=
  let tds := tooltipDescriptions col.tooltips
  col.checkboxes.foldl (fun acc cb =>
    match findLabelFor col.labels cb.id with
    | none => acc
    | some full =>
      if full.isEmpty then acc
      else
        let description := (dictGet tds full).getD ""
        let (name, code) := splitServiceText full
        acc ++ [⟨category, code, name, description⟩]) []

/-- One accordion item (lines 58–117): category from the header button
(trailing colons stripped, default `"Unknown"`), then its checkboxes; an
item without a collapse contributes nothing. -/
def svcFromItem (item : AccordionItem) : List Service :=
  let category :=
    match item.headerButton with
    | some (some btxt) => rstripColon btxt
    | _ => "Unknown"
  match item.collapse with
  | none => []
  | some col => svcFromCollapse category col

/-- The raw `service_types` list before deduplication (lines 41–117). -/
def raw_service_types (doc : TaxDoc) : List Service :=
  match doc.accordionItems with
  | none => []
  | some items => items.foldl (fun acc it => acc ++ svcFromItem it) []

/-- The dedup loop (lines 119–126): a `seen` set of keys and an output
list, first occurrence kept, order preserved. -/
def dedupStep (st : List (String × String) × List Service) (s : Service) :
    List (String × String) × List Service :=
  if st.1.contains (serviceKey s) then st
  else (serviceKey s :: st.1, st.2 ++ [s])

/-- Embeds `unique_services` (lines 119–126). -/
def dedupServices (l : List Service) : List Service :=
  (l.foldl dedupStep ([], [])).2

/-- Embeds `SUDHelpLAScraper.extract_service_types` (source lines 39–128). -/
def extract_service_types (doc : TaxDoc) : List Service :=
  dedupServices (raw_service_types doc)

/-- The specification-side description of the dedup result: keep exactly
each first occurrence of a key, in encounter order. -/
def firstOccurrences : List Service → List Service
  | [] => []
  | s :: rest =>
    s :: firstOccurrences (rest.filter (fun t => serviceKey t ≠ serviceKey s))
termination_by l => l.length
decreasing_by
  exact Nat.lt_succ_of_le (List.length_filter_le _ _)

/-! ## Invariant predicates used by the theorems -/

/-- The well-formedness invariant of every schedule value: the outer dict
has exactly the seven canonical day keys in their fixed order, and every
inner dict has exactly the keys `open` and `close`. -/
def SchedOK (s : Sched) : Prop :=
  s.map Prod.fst = days7 ∧ ∀ p ∈ s, p.2.map Prod.fst = ["open", "close"]

/-- A structural failure during table parsing: either `find_all('tr')`
raises on the node, or (with at least two rows present) reading a cell text
of the header or value row raises.  These are exactly the raise points of
the `try` block, and all of them precede the first schedule mutation. -/
def tableStructFails (t : HTable) : Prop :=
  t.rows = Except.error () ∨
  ∃ rows, t.rows = Except.ok rows ∧ 2 ≤ rows.length ∧
    (cellTexts (rows.getD 0 []) = Except.error () ∨
     cellTexts (rows.getD 1 []) = Except.error ())

/-- Record well-formedness: the key list is exactly the fixed schema. -/
def KeysOK (d : Record) : Prop := d.map Prod.fst = fixedKeys

/-- States that `KeysOK` holds of both a normal result and the partial record carried
out of a raise. -/
def exceptKeysOK : Except Record Record → Prop
  | Except.ok d => KeysOK d
  | Except.error d => KeysOK d

/-- The ordering actually induced by `list(day_mapping.values()).index(...)`:
Monday = 0 … Sunday = 6 (the spec wrongly documents Sunday = 0). -/
def mondayOrder : List String :=
  ["monday", "tuesday", "wednesday", "thursday", "friday", "saturday",
   "sunday"]

/-- The seven full day spellings accepted by the day-range rule. -/
def fullDayNames : List String :=
  ["Monday", "Tuesday", "Wednesday", "Thursday", "Friday", "Saturday",
   "Sunday"]

/-! ## Association-list (Python dict) lemmas -/

theorem dictGet_append_of_none {α : Type} {m : List (String × α)} {k : String}
    (h : dictGet m k = none) (l : List (String × α)) :
    dictGet (m ++ l) k = dictGet l k := by
  induction m with
  | nil => simp
  | cons p rest ih =>
    rw [dictGet] at h
    by_cases hp : p.1 = k
    · simp [hp] at h
    · simp only [hp, if_false] at h
      simpa [dictGet, hp] using ih h

theorem dictGet_none_of_any_false {α : Type} {m : List (String × α)}
    {k : String} (h : m.any (fun p => p.1 = k) = false) :
    dictGet m k = none := by
  induction m with
  | nil => rfl
  | cons p rest ih =>
    simp only [List.any_cons, Bool.or_eq_false_iff] at h
    have hp : ¬ p.1 = k := by simpa using h.1
    simp [dictGet, hp, ih h.2]

theorem dictGet_map_replace_ne {α : Type} {m : List (String × α)}
    {k k' : String} {v : α} (hne : k' ≠ k) :
    dictGet (m.map (fun p => if p.1 = k then (k, v) else p)) k'
      = dictGet m k' := by
  induction m with
  | nil => rfl
  | cons p rest ih =>
    simp only [List.map_cons]
    by_cases hp : p.1 = k
    · rw [if_pos hp, dictGet, dictGet]
      have h1 : ¬ ((k, v).1 = k') := fun h => hne h.symm
      have h2 : ¬ (p.1 = k') := by rw [hp]; exact fun h => hne h.symm
      rw [if_neg h1, if_neg h2]
      exact ih
    · rw [if_neg hp, dictGet, dictGet]
      by_cases hq : p.1 = k'
      · rw [if_pos hq, if_pos hq]
      · rw [if_neg hq, if_neg hq]
        exact ih

theorem any_key_cons_elim {α : Type} {p : String × α}
    {rest : List (String × α)} {k : String}
    (hany : ((p :: rest).any fun q => q.1 = k) = true) (hp : ¬ p.1 = k) :
    (rest.any fun q => q.1 = k) = true := by
  rw [List.any_cons] at hany
  cases hor : decide (p.1 = k) with
  | true => exact absurd (of_decide_eq_true hor) hp
  | false => rw [hor, Bool.false_or] at hany; exact hany

theorem dictGet_map_replace_self {α : Type} {m : List (String × α)}
    {k : String} {v : α} (hany : m.any (fun p => p.1 = k) = true) :
    dictGet (m.map (fun p => if p.1 = k then (k, v) else p)) k = some v := by
  induction m with
  | nil => simp at hany
  | cons p rest ih =>
    simp only [List.map_cons]
    by_cases hp : p.1 = k
    · rw [if_pos hp, dictGet, if_pos rfl]
    · rw [if_neg hp, dictGet, if_neg hp]
      exact ih (any_key_cons_elim hany hp)

theorem dictGet_append_single_ne {α : Type} (m : List (String × α))
    {k k' : String} (v : α) (hk : k' ≠ k) :
    dictGet (m ++ [(k, v)]) k' = dictGet m k' := by
  induction m with
  | nil =>
    have h1 : ¬ (k = k') := fun h => hk h.symm
    simp [dictGet, h1]
  | cons p rest ih =>
    rw [List.cons_append, dictGet, dictGet]
    by_cases hq : p.1 = k'
    · rw [if_pos hq, if_pos hq]
    · rw [if_neg hq, if_neg hq]
      exact ih

theorem dictGet_dictSet {α : Type} (m : List (String × α)) (k k' : String)
    (v : α) :
    dictGet (dictSet m k v) k' = if k' = k then some v else dictGet m k' := by
  by_cases hany : m.any (fun p => p.1 = k) = true
  · rw [dictSet, if_pos hany]
    by_cases hk : k' = k
    · subst hk
      rw [if_pos rfl]
      exact dictGet_map_replace_self hany
    · rw [if_neg hk]
      exact dictGet_map_replace_ne hk
  · have hfalse : m.any (fun p => p.1 = k) = false := by
      cases h : m.any (fun p => p.1 = k) with
      | true => exact absurd h hany
      | false => rfl
    have hnone : dictGet m k = none := dictGet_none_of_any_false hfalse
    rw [dictSet, if_neg hany]
    by_cases hk : k' = k
    · subst hk
      rw [if_pos rfl, dictGet_append_of_none hnone, dictGet, if_pos rfl]
    · rw [if_neg hk]
      exact dictGet_append_single_ne m v hk

theorem map_replace_keys {α : Type} (m : List (String × α)) (k : String)
    (v : α) :
    (m.map (fun p => if p.1 = k then (k, v) else p)).map Prod.fst
      = m.map Prod.fst := by
  induction m with
  | nil => rfl
  | cons p rest ih =>
    by_cases hp : p.1 = k
    · simp only [List.map_cons, if_pos hp, ih]
      rw [← hp]
    · simp [hp, ih]

theorem dictSet_keys_of_mem {α : Type} {m : List (String × α)} {k : String}
    (v : α) (h : k ∈ m.map Prod.fst) :
    (dictSet m k v).map Prod.fst = m.map Prod.fst := by
  have hany : m.any (fun p => p.1 = k) = true := by
    rw [List.any_eq_true]
    obtain ⟨q, hq, hqk⟩ := List.mem_map.mp h
    exact ⟨q, hq, by simpa using hqk⟩
  rw [dictSet, if_pos hany]
  exact map_replace_keys m k v

/-! ## C5: the four documented `convert_to_24h` conversions -/

/-- C5: `convert_to_24h` maps `"9:00 AM"` to `"09:00"`, `"12:00 AM"` to
`"00:00"`, `"12:00 PM"` to `"12:00"`, and `"9PM"` to `"21:00"`. -/
theorem convert_to_24h_examples :
    convert_to_24h "9:00 AM" = "09:00" ∧
    convert_to_24h "12:00 AM" = "00:00" ∧
    convert_to_24h "12:00 PM" = "12:00" ∧
    convert_to_24h "9PM" = "21:00" := by
  decide

/-! ## C2: the fallback of `convert_to_24h` on unrecognized input -/

/-- C2 counterexample: the unrecognized token `"noon"` (no `AM`/`PM`
suffix, not a parseable time) is **not** returned character-for-character:
line 219 rebinds `time_str` to its uppercased whitespace-stripped form
before the fallback return. -/
theorem convert_to_24h_modifies_unrecognized :
    convert_to_24h "noon" = "NOON" ∧ "NOON" ≠ "noon" := by
  decide

/-- C2 (amended): on any token whose stripped uppercased form contains
neither `AM` nor `PM`, `convert_to_24h` returns that stripped uppercased
form (and, being a total function, never raises). -/
theorem convert_to_24h_unrecognized_returns_stripped (s : String)
    (hA : listContains (stripUpper s).data ['A', 'M'] = false)
    (hP : listContains (stripUpper s).data ['P', 'M'] = false) :
    convert_to_24h s = stripUpper s := by
  rw [convert_to_24h]
  simp [hA, hP]

/-- Witness for the amended C2 theorem at the concrete token `" no on "`. -/
theorem convert_to_24h_unrecognized_witness :
    listContains (stripUpper " no on ").data ['A', 'M'] = false ∧
    listContains (stripUpper " no on ").data ['P', 'M'] = false ∧
    convert_to_24h " no on " = stripUpper " no on " :=
  ⟨by decide, by decide,
    convert_to_24h_unrecognized_returns_stripped " no on " (by decide) (by decide)⟩

/-! ## C3: day-range expansion ordering -/

/-- C3 counterexample: the spec claims a Sunday-first (Sunday=0…Saturday=6)
ordering, under which `"Sun-Tue"` would set sunday, monday and tuesday.
In the code `day_list = list(day_mapping.values())` starts with Monday, so
`"Sun-Tue"` resolves to indices 6…1 and `range(6, 2)` is empty: no day is
set at all. -/
theorem parse_hours_sun_tue_sets_nothing :
    parse_hours "Sun-Tue: 9:00 AM - 5:00 PM" = initHours ∧
    dictGet initHours "sunday" = some (mkOC "" "") := by
  decide

/-! ## Schedule shape invariant (C9, and infrastructure for C4) -/



theorem schedOK_initHours : SchedOK initHours := by
  constructor
  · rfl
  · decide

theorem dictSet_forall_values {α : Type} {P : α → Prop}
    {m : List (String × α)} {k : String} {v : α}
    (hm : ∀ p ∈ m, P p.2) (hv : P v) : ∀ p ∈ dictSet m k v, P p.2 := by
  intro p hp
  rw [dictSet] at hp
  by_cases hany : m.any (fun q => q.1 = k) = true
  · rw [if_pos hany] at hp
    obtain ⟨q, hq, hqp⟩ := List.mem_map.mp hp
    by_cases hqk : q.1 = k
    · rw [if_pos hqk] at hqp
      rw [← hqp]
      exact hv
    · rw [if_neg hqk] at hqp
      rw [← hqp]
      exact hm q hq
  · rw [if_neg hany] at hp
    rcases List.mem_append.mp hp with h | h
    · exact hm p h
    · rw [List.mem_singleton.mp h]
      exact hv

theorem schedOK_dictSet {s : Sched} {k o c : String} (hs : SchedOK s)
    (hk : k ∈ days7) : SchedOK (dictSet s k (mkOC o c)) := by
  constructor
  · rw [dictSet_keys_of_mem _ (by rw [hs.1]; exact hk)]
    exact hs.1
  · exact @dictSet_forall_values Entry
      (fun e => e.map Prod.fst = ["open", "close"]) s k (mkOC o c) hs.2 rfl

theorem day_list_indexOf_le_six : ∀ d ∈ day_list, day_list.indexOf d ≤ 6 := by
  decide

theorem day_list_getD_mem_days7 : ∀ i < 7, day_list.getD i "" ∈ days7 := by
  decide

theorem schedOK_foldl_setdays {o c : String} (idxs : List Nat)
    (hidx : ∀ i ∈ idxs, day_list.getD i "" ∈ days7) :
    ∀ h : Sched, SchedOK h →
      SchedOK (idxs.foldl
        (fun h i => dictSet h (day_list.getD i "") (mkOC o c)) h) := by
  induction idxs with
  | nil => intro h hh; exact hh
  | cons i rest ih =>
    intro h hh
    rw [List.foldl_cons]
    exact ih (fun j hj => hidx j (List.mem_cons_of_mem _ hj))
      _ (schedOK_dictSet hh (hidx i (List.mem_cons_self _ _)))

theorem schedOK_applyMatch {h : Sched} (m : RangeMatch) (hs : SchedOK h) :
    SchedOK (applyMatch h m) := by
  rw [applyMatch]
  by_cases hc : (day_list.contains (dayMapGet (pyLower m.d1)) &&
      day_list.contains (if m.d2.isEmpty then dayMapGet (pyLower m.d1)
        else dayMapGet (pyLower m.d2))) = true
  · rw [if_pos hc]
    have hend : (if m.d2.isEmpty then dayMapGet (pyLower m.d1)
        else dayMapGet (pyLower m.d2)) ∈ day_list := by
      have h2 := (Bool.and_eq_true _ _).mp hc |>.2
      simpa using h2
    have hle := day_list_indexOf_le_six _ hend
    apply schedOK_foldl_setdays _ _ _ hs
    intro i hi
    have hr := List.mem_range'.mp hi
    apply day_list_getD_mem_days7
    omega
  · rw [if_neg hc]
    exact hs

theorem schedOK_foldl_applyMatch (ms : List RangeMatch) :
    ∀ h : Sched, SchedOK h → SchedOK (ms.foldl applyMatch h) := by
  induction ms with
  | nil => intro h hh; exact hh
  | cons m rest ih =>
    intro h hh
    rw [List.foldl_cons]
    exact ih _ (schedOK_applyMatch m hh)

theorem map_fst_map_keep_key (s : Sched) (f : String × Entry → Entry) :
    (s.map (fun p => (p.1, f p))).map Prod.fst = s.map Prod.fst := by
  induction s with
  | nil => rfl
  | cons p rest ih => simp [ih]

theorem schedOK_parse_hours (t : String) : SchedOK (parse_hours t) := by
  rw [parse_hours]
  by_cases he : t.isEmpty = true
  · rw [if_pos he]
    exact schedOK_initHours
  · rw [if_neg he]
    by_cases h24 : search24 (lowerChars t) = true
    · rw [if_pos h24]
      constructor
      · rw [map_fst_map_keep_key]
        exact schedOK_initHours.1
      · intro p hp
        obtain ⟨q, _, hqp⟩ := List.mem_map.mp hp
        rw [← hqp]
        rfl
    · rw [if_neg h24]
      exact schedOK_foldl_applyMatch _ _ schedOK_initHours

theorem dictGet_mem_values {α : Type} {m : List (String × α)} {k : String}
    {v : α} (h : dictGet m k = some v) : v ∈ m.map Prod.snd := by
  induction m with
  | nil => simp [dictGet] at h
  | cons p rest ih =>
    rw [dictGet] at h
    by_cases hp : p.1 = k
    · rw [if_pos hp] at h
      rw [List.map_cons]
      exact (Option.some_inj.mp h) ▸ List.mem_cons_self _ _
    · rw [if_neg hp] at h
      exact List.mem_cons_of_mem _ (ih h)

theorem table_day_values_mem_days7 :
    ∀ v ∈ table_day_mapping.map Prod.snd, v ∈ days7 := by
  decide

theorem schedOK_procCell {h : Sched} (p : String × String) (hs : SchedOK h) :
    SchedOK (procCell h p) := by
  rw [procCell]
  split
  · exact hs
  · rename_i day_key hg
    have hday : day_key ∈ days7 :=
      table_day_values_mem_days7 _ (dictGet_mem_values hg)
    split
    · exact schedOK_dictSet hs hday
    · split
      · exact schedOK_dictSet hs hday
      · exact hs

theorem schedOK_foldl_procCell (l : List (String × String)) :
    ∀ h : Sched, SchedOK h → SchedOK (l.foldl procCell h) := by
  induction l with
  | nil => intro h hh; exact hh
  | cons p rest ih =>
    intro h hh
    rw [List.foldl_cons]
    exact ih _ (schedOK_procCell p hh)

theorem schedOK_parse_hours_table (tb : HTable) :
    SchedOK (parse_hours_table tb) := by
  rw [parse_hours_table]
  split
  · exact schedOK_initHours
  · split
    · split
      · exact schedOK_foldl_procCell _ _ schedOK_initHours
      · exact schedOK_initHours
    · exact schedOK_initHours

theorem forall_map_const {α β : Type} {l : List α} {f : α → β} {c : β}
    (h : ∀ p ∈ l, f p = c) : l.map f = List.replicate l.length c := by
  induction l with
  | nil => rfl
  | cons p rest ih =>
    rw [List.map_cons, List.length_cons, List.replicate_succ,
      h p (List.mem_cons_self _ _),
      ih (fun q hq => h q (List.mem_cons_of_mem _ hq))]

theorem schedOK_values_replicate {s : Sched} (hs : SchedOK s) :
    s.map (fun p => p.2.map Prod.fst) = List.replicate 7 ["open", "close"] := by
  have hlen : s.length = 7 := by
    have := congrArg List.length hs.1
    simpa using this
  rw [forall_map_const hs.2, hlen]

/-- C9: on every input, `parse_hours` and `parse_hours_table` return a
mapping whose keys are exactly the seven canonical weekday names
(sunday…saturday, in fixed order) and whose every value has exactly the
keys `open` and `close`; no operation adds, removes or renames a day key. -/
theorem hours_parsers_fixed_keys :
    (∀ t : String, (parse_hours t).map Prod.fst = days7 ∧
      (parse_hours t).map (fun p => p.2.map Prod.fst)
        = List.replicate 7 ["open", "close"]) ∧
    (∀ tb : HTable, (parse_hours_table tb).map Prod.fst = days7 ∧
      (parse_hours_table tb).map (fun p => p.2.map Prod.fst)
        = List.replicate 7 ["open", "close"]) :=
  ⟨fun t => ⟨(schedOK_parse_hours t).1,
    schedOK_values_replicate (schedOK_parse_hours t)⟩,
   fun tb => ⟨(schedOK_parse_hours_table tb).1,
    schedOK_values_replicate (schedOK_parse_hours_table tb)⟩⟩

/-! ## C6: the `24/7` sentinel takes priority in `parse_hours` -/

theorem match24At_of_247 (rest : List Char) :
    match24At ('2' :: '4' :: '/' :: '7' :: rest) = true := rfl

theorem match24At_of_24hours (rest : List Char) :
    match24At ('2' :: '4' :: ' ' :: 'h' :: 'o' :: 'u' :: 'r' :: 's' :: rest)
      = true := by
  simp [match24At, List.dropWhile, isPyWs, List.isPrefixOf]

theorem search24_of_contains {needle : List Char}
    (hmatch : ∀ cs, needle.isPrefixOf cs = true → match24At cs = true) :
    ∀ hay, listContains hay needle = true → search24 hay = true := by
  intro hay
  induction hay with
  | nil =>
    intro h
    rw [listContains] at h
    rcases Bool.or_eq_true _ _ |>.mp h with h | h
    · exact absurd (hmatch [] h) (by simp [match24At])
    · simp at h
  | cons c t ih =>
    intro h
    rw [listContains] at h
    rw [search24, Bool.or_eq_true]
    rcases Bool.or_eq_true _ _ |>.mp h with h | h
    · exact Or.inl (hmatch _ h)
    · exact Or.inr (ih h)

theorem match24At_of_prefix_247 :
    ∀ cs, ("24/7".data).isPrefixOf cs = true → match24At cs = true := by
  intro cs h
  obtain ⟨rest, hr⟩ := List.isPrefixOf_iff_prefix.mp h
  rw [← hr]
  exact match24At_of_247 rest

theorem match24At_of_prefix_24hours :
    ∀ cs, ("24 hours".data).isPrefixOf cs = true → match24At cs = true := by
  intro cs h
  obtain ⟨rest, hr⟩ := List.isPrefixOf_iff_prefix.mp h
  rw [← hr]
  exact match24At_of_24hours rest

theorem listContains_ne_nil {hay needle : List Char}
    (hne : needle ≠ []) (h : listContains hay needle = true) : hay ≠ [] := by
  intro hnil
  subst hnil
  rw [listContains] at h
  rcases Bool.or_eq_true _ _ |>.mp h with h | h
  · cases needle with
    | nil => exact hne rfl
    | cons a as => simp [List.isPrefixOf] at h
  · simp at h

/-- C6: whenever the hours text contains `24/7` or `24 hours`
(case-insensitively, tested here on the lowercased text), `parse_hours`
returns the schedule in which all seven weekdays are `00:00`–`23:59`, and
no day-range parsing is applied afterwards — the sentinel wins over any
range matches present in the same text. -/
theorem parse_hours_24_7_sentinel (t : String)
    (h : listContains (lowerChars t) ("24/7".data) = true ∨
         listContains (lowerChars t) ("24 hours".data) = true) :
    parse_hours t = days7.map (fun d => (d, mkOC "00:00" "23:59")) := by
  have hs : search24 (lowerChars t) = true := by
    rcases h with h | h
    · exact search24_of_contains match24At_of_prefix_247 _ h
    · exact search24_of_contains match24At_of_prefix_24hours _ h
  have hne : t.isEmpty ≠ true := by
    intro he
    have hdata : lowerChars t = [] := by
      rw [(String.isEmpty_iff t).mp he]
      rfl
    rcases h with h | h <;>
      exact absurd rfl (listContains_ne_nil (by decide) (hdata ▸ h))
  rw [parse_hours, if_neg hne, if_pos hs]
  rw [initHours, List.map_map]
  rfl

/-- Witness for C6 at the concrete text `"Open 24/7"`. -/
theorem parse_hours_24_7_witness :
    (listContains (lowerChars "Open 24/7") ("24/7".data) = true ∨
      listContains (lowerChars "Open 24/7") ("24 hours".data) = true) ∧
    parse_hours "Open 24/7" = days7.map (fun d => (d, mkOC "00:00" "23:59")) :=
  ⟨Or.inl (by decide), parse_hours_24_7_sentinel "Open 24/7" (Or.inl (by decide))⟩

/-! ## C7: structural failures in `parse_hours_table` degrade to the
all-default schedule -/



/-- C7: on every table node whose parsing hits a structural failure,
`parse_hours_table` catches the exception and returns the all-default
schedule (every weekday `{open: "", close: ""}`). -/
theorem parse_hours_table_fail_default (t : HTable)
    (h : tableStructFails t) : parse_hours_table t = initHours := by
  rw [parse_hours_table]
  rcases h with h | ⟨rows, hr, hlen, hcell⟩
  · rw [h]
  · rw [hr]
    simp only [if_pos hlen]
    rcases hcell with hc | hc
    · rw [hc]
    · rw [hc]
      cases cellTexts (rows.getD 0 []) <;> rfl

/-- Witness for C7: a node on which `find_all('tr')` itself raises. -/
theorem parse_hours_table_fail_witness :
    tableStructFails ⟨Except.error ()⟩ ∧
    parse_hours_table ⟨Except.error ()⟩ = initHours :=
  ⟨Or.inl rfl, parse_hours_table_fail_default ⟨Except.error ()⟩ (Or.inl rfl)⟩

/-! ## C10: `parse_hours` time tokens require an explicit minutes part -/

theorem finishTime_colon (pre rest cap r : List Char) (hp : ':' ∈ pre)
    (h : finishTime pre rest = some (cap, r)) : ':' ∈ cap := by
  rw [finishTime] at h
  split at h
  · split at h
    · split at h
      · split at h
        · rcases Option.some_inj.mp h with h'
          rcases Prod.mk.injEq .. ▸ h' with ⟨hcap, -⟩
          rw [← hcap]
          exact List.mem_append_left _ (List.mem_append_left _ hp)
        · rcases Option.some_inj.mp h with h'
          rcases Prod.mk.injEq .. ▸ h' with ⟨hcap, -⟩
          rw [← hcap]
          exact List.mem_append_left _ (List.mem_append_left _ hp)
      · rcases Option.some_inj.mp h with h'
        rcases Prod.mk.injEq .. ▸ h' with ⟨hcap, -⟩
        rw [← hcap]
        exact List.mem_append_left _ (List.mem_append_left _ hp)
    · simp at h
  · simp at h

/-- Every time token captured by the day-range regex of `parse_hours`
contains a colon (the pattern is `\d{1,2}:\d{2}…`). -/
theorem matchTime_colon (cs cap rest : List Char)
    (h : matchTime cs = some (cap, rest)) : ':' ∈ cap := by
  rw [matchTime.eq_def] at h
  split at h
  · split at h
    · split at h
      · split at h
        · exact finishTime_colon _ _ _ _ (by simp) h
        · simp at h
      · split at h
        · exact finishTime_colon _ _ _ _ (by simp) h
        · simp at h
      · simp at h
    · simp at h
  · simp at h

/-- C10: the day-range rule of `parse_hours` only recognizes times with an
explicit `:MM` minutes part — every captured time token contains a colon —
so `"Mon-Fri: 9AM - 5PM"` produces no range match and the schedule stays at
its empty default, even though `convert_to_24h` itself accepts the
minute-less tokens `"9AM"` and `"5PM"`. -/
theorem parse_hours_requires_minutes :
    (∀ cs cap rest, matchTime cs = some (cap, rest) → ':' ∈ cap) ∧
    parse_hours "Mon-Fri: 9AM - 5PM" = initHours ∧
    convert_to_24h "9AM" = "09:00" ∧ convert_to_24h "5PM" = "17:00" :=
  ⟨matchTime_colon, by decide, by decide, by decide⟩

/-- Witness for the quantified part of C10 at the token `9:00AM`. -/
theorem parse_hours_requires_minutes_witness :
    matchTime ("9:00AM".data) = some ("9:00AM".data, ([] : List Char)) ∧
    ':' ∈ ("9:00AM".data) :=
  ⟨by decide,
    parse_hours_requires_minutes.1 ("9:00AM".data) ("9:00AM".data) []
      (by decide)⟩

/-! ## C8: deduplication of the service taxonomy -/

theorem firstOccurrences_sublist :
    ∀ (n : Nat) (l : List Service), l.length ≤ n →
      List.Sublist (firstOccurrences l) l := by
  intro n
  induction n with
  | zero =>
    intro l hl
    rw [List.length_eq_zero.mp (Nat.le_zero.mp hl)]
    rw [firstOccurrences]
  | succ n ih =>
    intro l hl
    cases l with
    | nil => rw [firstOccurrences]
    | cons s rest =>
      rw [firstOccurrences]
      apply List.Sublist.cons₂
      exact ((ih _ (Nat.le_trans (List.length_filter_le _ _)
        (Nat.le_of_succ_le_succ hl))).trans (List.filter_sublist _))

theorem firstOccurrences_pairwise :
    ∀ (n : Nat) (l : List Service), l.length ≤ n →
      (firstOccurrences l).Pairwise (fun a b => serviceKey a ≠ serviceKey b) := by
  intro n
  induction n with
  | zero =>
    intro l hl
    rw [List.length_eq_zero.mp (Nat.le_zero.mp hl)]
    rw [firstOccurrences]
    exact List.Pairwise.nil
  | succ n ih =>
    intro l hl
    cases l with
    | nil => rw [firstOccurrences]; exact List.Pairwise.nil
    | cons s rest =>
      rw [firstOccurrences]
      have hlen : (rest.filter
          (fun t => serviceKey t ≠ serviceKey s)).length ≤ n :=
        Nat.le_trans (List.length_filter_le _ _) (Nat.le_of_succ_le_succ hl)
      refine List.Pairwise.cons ?_ (ih _ hlen)
      intro b hb
      have hbmem : b ∈ rest.filter (fun t => serviceKey t ≠ serviceKey s) :=
        (firstOccurrences_sublist n _ hlen).subset hb
      have := List.of_mem_filter hbmem
      exact (of_decide_eq_true this).symm

theorem dedup_go (l : List Service) :
    ∀ (seen : List (String × String)) (out : List Service),
      (l.foldl dedupStep (seen, out)).2
        = out ++ firstOccurrences
            (l.filter (fun s => !seen.contains (serviceKey s))) := by
  induction l with
  | nil =>
    intro seen out
    rw [List.foldl_nil, List.filter_nil, firstOccurrences, List.append_nil]
  | cons s rest ih =>
    intro seen out
    rw [List.foldl_cons, List.filter_cons]
    rw [dedupStep]
    by_cases hc : seen.contains (serviceKey s) = true
    · rw [if_pos hc, ih seen out]
      have : (!seen.contains (serviceKey s)) = false := by rw [hc]; rfl
      rw [this]
      rfl
    · have hcf : seen.contains (serviceKey s) = false := by
        cases h : seen.contains (serviceKey s) with
        | true => exact absurd h hc
        | false => rfl
      rw [if_neg hc, ih (serviceKey s :: seen) (out ++ [s])]
      have : (!seen.contains (serviceKey s)) = true := by rw [hcf]; rfl
      rw [this, if_pos rfl, firstOccurrences, List.append_assoc]
      have hfilters :
          (rest.filter (fun x => !seen.contains (serviceKey x))).filter
            (fun t => serviceKey t ≠ serviceKey s)
          = rest.filter
              (fun x => !(serviceKey s :: seen).contains (serviceKey x)) := by
        rw [List.filter_filter]
        apply List.filter_congr
        intro t _
        rw [List.contains_cons, Bool.not_or, decide_not]
        have hb : (serviceKey t == serviceKey s)
            = decide (serviceKey t = serviceKey s) := by
          cases h1 : serviceKey t == serviceKey s with
          | true =>
            rw [decide_eq_true (eq_of_beq h1)]
          | false =>
            have hne : ¬ serviceKey t = serviceKey s := by
              intro he
              rw [he, beq_self_eq_true] at h1
              cases h1
            rw [decide_eq_false hne]
        rw [hb, Bool.and_comm]
      rw [hfilters]
      rfl

theorem dedupServices_eq_firstOccurrences (l : List Service) :
    dedupServices l = firstOccurrences l := by
  rw [dedupServices, dedup_go l [] []]
  rw [List.nil_append]
  congr 1
  apply List.filter_eq_self.mpr
  intro a _
  rfl

/-- C8: the taxonomy returned by `extract_service_types` never contains two
entries with the same `(category, service_name)` pair; it equals the
first-occurrence filtering of the raw scan (first-seen entry kept with its
code and description) and is a sublist of the raw scan, so the retained
entries keep their first-encounter order. -/
theorem extract_service_types_unique (doc : TaxDoc) :
    (extract_service_types doc).Pairwise
      (fun a b => serviceKey a ≠ serviceKey b) ∧
    extract_service_types doc = firstOccurrences (raw_service_types doc) ∧
    List.Sublist (extract_service_types doc) (raw_service_types doc) := by
  have heq : extract_service_types doc
      = firstOccurrences (raw_service_types doc) :=
    dedupServices_eq_firstOccurrences _
  refine ⟨?_, heq, ?_⟩
  · rw [heq]
    exact firstOccurrences_pairwise _ _ (Nat.le_refl _)
  · rw [heq]
    exact firstOccurrences_sublist _ _ (Nat.le_refl _)

/-! ## C4 and C1: the fixed record schema of `parse_agency_data` and the
single `try` block around all field groups -/





theorem initRecord_keysOK : KeysOK initRecord := rfl

theorem optStep_some {β : Type} (b : β) (d : Record)
    (f : β → Record → Except Record Record) : optStep (some b) d f = f b d :=
  rfl

theorem optStep_none {β : Type} (d : Record)
    (f : β → Record → Except Record Record) :
    optStep (none : Option β) d f = Except.ok d :=
  rfl

theorem keysOK_dictSet {d : Record} {k v : String} (hk : k ∈ fixedKeys)
    (hd : KeysOK d) : KeysOK (dictSet d k v) := by
  rw [KeysOK, dictSet_keys_of_mem v (by rw [hd]; exact hk)]
  exact hd

theorem exceptKeysOK_bind {x : Except Record Record}
    {f : Record → Except Record Record} (hx : exceptKeysOK x)
    (hf : ∀ d, KeysOK d → exceptKeysOK (f d)) : exceptKeysOK (x >>= f) := by
  cases x with
  | ok d => exact hf d hx
  | error e => exact hx

theorem stepTxt_keys {t? : Option Txt} {d : Record} {f : String → Record}
    (hd : KeysOK d) (hf : ∀ s, KeysOK (f s)) :
    exceptKeysOK (stepTxt t? d f) := by
  cases t? with
  | none => exact hd
  | some t =>
    cases t with
    | ok s => exact hf s
    | error e => exact hd

theorem agency_hours_keys_mem :
    ∀ dd ∈ days7, ("agency_hours_" ++ dd ++ "_open") ∈ fixedKeys ∧
      ("agency_hours_" ++ dd ++ "_close") ∈ fixedKeys := by
  decide

theorem intake_hours_keys_mem :
    ∀ dd ∈ days7, ("intake_hours_" ++ dd ++ "_open") ∈ fixedKeys ∧
      ("intake_hours_" ++ dd ++ "_close") ∈ fixedKeys := by
  decide

theorem applySched_keys (pre : String)
    (hpre : ∀ dd ∈ days7, (pre ++ dd ++ "_open") ∈ fixedKeys ∧
      (pre ++ dd ++ "_close") ∈ fixedKeys) :
    ∀ (sched : Sched), (∀ p ∈ sched, p.1 ∈ days7) →
      ∀ d, KeysOK d → exceptKeysOK (applySched pre sched d) := by
  intro sched
  induction sched with
  | nil =>
    intro _ d hd
    exact hd
  | cons p rest ih =>
    intro hmem d hd
    have hp1 := hmem p (List.mem_cons_self _ _)
    rw [applySched]
    split
    · exact hd
    · rename_i o ho
      have hd' : KeysOK (dictSet d (pre ++ p.1 ++ "_open") o) :=
        keysOK_dictSet (hpre p.1 hp1).1 hd
      split
      · exact hd'
      · rename_i c hc
        exact ih (fun q hq => hmem q (List.mem_cons_of_mem _ hq)) _
          (keysOK_dictSet (hpre p.1 hp1).2 hd')

theorem sched_fst_mem_days7 {sched : Sched} (hs : SchedOK sched) :
    ∀ p ∈ sched, p.1 ∈ days7 := by
  intro p hp
  rw [← hs.1]
  exact List.mem_map_of_mem Prod.fst hp

theorem pa_listing_keys (l : ListingDiv) (d : Record) (hd : KeysOK d) :
    exceptKeysOK (pa_listing l d) := by
  rw [pa_listing]
  apply exceptKeysOK_bind
    (stepTxt_keys hd (fun s => keysOK_dictSet (by decide) hd))
  intro d1 hd1
  apply exceptKeysOK_bind ?_ ?_
  · cases l.secondname with
    | none => exact hd1
    | some sp =>
      cases sp with
      | none => exact hd1
      | some t =>
        cases t with
        | ok s => exact keysOK_dictSet (by decide) hd1
        | error e => exact hd1
  · intro d2 hd2
    apply exceptKeysOK_bind
      (stepTxt_keys hd2 (fun s => keysOK_dictSet (by decide) hd2))
    intro d3 hd3
    apply exceptKeysOK_bind (stepTxt_keys hd3 ?_) ?_
    · intro s
      cases phoneSearch s with
      | none => exact hd3
      | some ph => exact keysOK_dictSet (by decide) hd3
    · intro d4 hd4
      have hd5 : KeysOK (match l.web with
          | some (some href?) => dictSet d4 "agency_website" (href?.getD "")
          | _ => d4) := by
        cases l.web with
        | none => exact hd4
        | some w =>
          cases w with
          | none => exact hd4
          | some href? => exact keysOK_dictSet (by decide) hd4
      apply exceptKeysOK_bind
        (stepTxt_keys hd5 (fun s => keysOK_dictSet (by decide) hd5))
      intro d6 hd6
      cases l.hoursTable with
      | none => exact hd6
      | some t? =>
        cases t? with
        | none => exact hd6
        | some tbl =>
          exact applySched_keys "agency_hours_" agency_hours_keys_mem _
            (sched_fst_mem_days7 (schedOK_parse_hours_table tbl)) _ hd6

theorem pa_intake_keys (t : Txt) (tbl? : Option HTable) (d : Record)
    (hd : KeysOK d) : exceptKeysOK (pa_intake t tbl? d) := by
  rw [pa_intake.eq_def]
  apply exceptKeysOK_bind ?_ ?_
  · cases t with
    | ok s =>
      have hred : exceptKeysOK (Except.ok (match findAppts s with
          | some n => dictSet d "intake_open_appointments" n
          | none => d)) := by
        cases findAppts s with
        | none => exact hd
        | some n => exact keysOK_dictSet (by decide) hd
      exact hred
    | error e => exact hd
  · intro d1 hd1
    cases tbl? with
    | none => exact hd1
    | some tbl =>
      exact applySched_keys "intake_hours_" intake_hours_keys_mem _
        (sched_fst_mem_days7 (schedOK_parse_hours_table tbl)) _ hd1

theorem pa_body_keys (a : AgencyDiv) (d : Record) (hd : KeysOK d) :
    exceptKeysOK (pa_body a d) := by
  rw [pa_body]
  apply exceptKeysOK_bind ?_ ?_
  · cases a.listing with
    | none => exact hd
    | some l => exact pa_listing_keys l d hd
  · intro d1 hd1
    apply exceptKeysOK_bind
      (stepTxt_keys hd1 (fun s => keysOK_dictSet (by decide) hd1))
    intro d2 hd2
    apply exceptKeysOK_bind ?_ ?_
    · cases a.intake with
      | none => exact hd2
      | some p => exact pa_intake_keys p.1 p.2 d2 hd2
    · intro d3 hd3
      apply exceptKeysOK_bind
        (stepTxt_keys hd3 (fun s => keysOK_dictSet (by decide) hd3))
      intro d4 hd4
      apply exceptKeysOK_bind
        (stepTxt_keys hd4 (fun s => keysOK_dictSet (by decide) hd4))
      intro d5 hd5
      exact stepTxt_keys hd5 (fun s => keysOK_dictSet (by decide) hd5)

theorem parse_agency_keys (a : AgencyDiv) : KeysOK (parse_agency_data a) := by
  rw [parse_agency_data]
  have h := pa_body_keys a initRecord initRecord_keysOK
  cases hb : pa_body a initRecord with
  | ok d => rw [hb] at h; exact h
  | error d => rw [hb] at h; exact h

/-- C4: every record produced by `parse_agency_data` has exactly the fixed
39-key schema (11 identity/operational fields plus 2 schedules × 7 days ×
{open, close}), and on an agency sub-tree with every optional sub-section
absent every key holds its empty-string default. -/
theorem parse_agency_data_schema :
    (∀ a : AgencyDiv, (parse_agency_data a).map Prod.fst = fixedKeys) ∧
    fixedKeys.length = 39 ∧
    parse_agency_data emptyAgency = fixedKeys.map (fun k => (k, "")) :=
  ⟨fun a => parse_agency_keys a, by decide, by decide⟩

/-- C1 counterexample: two agency sub-trees that differ only in the name
group.  In the first, `get_text` on the `<strong>` name element raises
while the address block is present and readable; the single `try` block
around all field groups aborts at the name group, so `agency_address`
stays at its default `""`.  In the second, the name element is simply
absent; the address group runs and extracts `"123 Main St"`.  Field groups
are therefore not evaluated in isolation under exceptions. -/
theorem parse_agency_exception_not_isolated :
    dictGet (parse_agency_data
        ⟨some ⟨some (Except.error ()), none, some (Except.ok "123 Main St"),
          none, none, none, none⟩, none, none, none, none, none⟩)
      "agency_address" = some "" ∧
    dictGet (parse_agency_data
        ⟨some ⟨none, none, some (Except.ok "123 Main St"),
          none, none, none, none⟩, none, none, none, none, none⟩)
      "agency_address" = some "123 Main St" := by
  decide

/-- C1 (amended): missing elements are isolated per field group (each group
sits behind its own existence check), but an exception is not: all groups
share one `try` block, so a raise inside one group skips every later group,
leaving their fields at the empty default, while values extracted by
earlier groups are kept — the exception is caught at the record boundary
and the partial record is still returned.  Here: the name group succeeds,
the address group raises, and the later phone/beds groups stay at their
defaults regardless of their own content. -/
theorem parse_agency_exception_aborts_later_groups
    (a : AgencyDiv) (l : ListingDiv) (nm : String)
    (h1 : a.listing = some l) (h2 : l.strong = some (Except.ok nm))
    (h3 : l.secondname = none) (h4 : l.address = some (Except.error ())) :
    parse_agency_data a = dictSet initRecord "agency_name" nm ∧
    dictGet (parse_agency_data a) "agency_name" = some nm ∧
    dictGet (parse_agency_data a) "agency_phone" = some "" ∧
    dictGet (parse_agency_data a) "available_beds" = some "" := by
  have hbody : pa_body a initRecord
      = Except.error (dictSet initRecord "agency_name" nm) := by
    have hlist : pa_listing l initRecord
        = Except.error (dictSet initRecord "agency_name" nm) := by
      rw [pa_listing.eq_def, h2, h3, h4]
      rfl
    rw [pa_body, h1, optStep_some, hlist]
    rfl
  have hmain : parse_agency_data a = dictSet initRecord "agency_name" nm := by
    rw [parse_agency_data, hbody]
  refine ⟨hmain, ?_, ?_, ?_⟩
  · rw [hmain, dictGet_dictSet, if_pos rfl]
  · rw [hmain, dictGet_dictSet, if_neg (by decide)]
    decide
  · rw [hmain, dictGet_dictSet, if_neg (by decide)]
    decide

/-- Witness for the amended C1 theorem on a concrete agency sub-tree whose
address text raises while phone and beds data are present. -/
theorem parse_agency_exception_aborts_witness :
    parse_agency_data
        ⟨some ⟨some (Except.ok "Hope House"), none, some (Except.error ()),
          some (Except.ok "(213) 555-0199"), none, none, none⟩,
         some (Except.ok "3 beds"), none, none, none, none⟩
      = dictSet initRecord "agency_name" "Hope House" :=
  (parse_agency_exception_aborts_later_groups
    ⟨some ⟨some (Except.ok "Hope House"), none, some (Except.error ()),
      some (Except.ok "(213) 555-0199"), none, none, none⟩,
     some (Except.ok "3 beds"), none, none, none, none⟩
    ⟨some (Except.ok "Hope House"), none, some (Except.error ()),
      some (Except.ok "(213) 555-0199"), none, none, none⟩
    "Hope House" rfl rfl rfl rfl).1

/-! ## C3 (amended): range expansion under the Monday-first ordering -/





theorem foldl_setdays_dictGet (oc : Entry) (idxs : List Nat)
    (d : String) :
    ∀ h : Sched,
      dictGet (idxs.foldl
          (fun acc i => dictSet acc (day_list.getD i "") oc) h) d
        = if ∃ i ∈ idxs, day_list.getD i "" = d then some oc
          else dictGet h d := by
  induction idxs with
  | nil =>
    intro h
    rw [List.foldl_nil, if_neg]
    rintro ⟨i, hi, -⟩
    exact absurd hi (List.not_mem_nil i)
  | cons i rest ih =>
    intro h
    rw [List.foldl_cons, ih]
    by_cases hex : ∃ j ∈ rest, day_list.getD j "" = d
    · rw [if_pos hex, if_pos]
      obtain ⟨j, hj, hjd⟩ := hex
      exact ⟨j, List.mem_cons_of_mem _ hj, hjd⟩
    · rw [if_neg hex, dictGet_dictSet]
      by_cases hdi : d = day_list.getD i ""
      · rw [if_pos hdi, if_pos ⟨i, List.mem_cons_self _ _, hdi.symm⟩]
      · rw [if_neg hdi, if_neg]
        rintro ⟨j, hj, hjd⟩
        rcases List.mem_cons.mp hj with rfl | hj'
        · exact hdi hjd.symm
        · exact hex ⟨j, hj', hjd⟩

theorem day_list_getD_eq_iff :
    ∀ d ∈ days7, ∀ i < 7,
      (day_list.getD i "" = d ↔ i = day_list.indexOf d) := by
  decide

theorem day_list_index_lt_seven : ∀ d ∈ day_list, day_list.indexOf d < 7 := by
  decide

theorem range'_getD_exists_iff {s e : Nat} (he : e < 7)
    {d : String} (hd : d ∈ days7) :
    (∃ i ∈ List.range' s (e + 1 - s), day_list.getD i "" = d)
      ↔ (s ≤ day_list.indexOf d ∧ day_list.indexOf d ≤ e) := by
  constructor
  · rintro ⟨i, hi, hid⟩
    rcases List.mem_range'_1.mp hi with ⟨h1, h2⟩
    have hi7 : i < 7 := by omega
    have := (day_list_getD_eq_iff d hd i hi7).mp hid
    omega
  · rintro ⟨h1, h2⟩
    refine ⟨day_list.indexOf d, List.mem_range'_1.mpr ⟨h1, by omega⟩, ?_⟩
    exact (day_list_getD_eq_iff d hd _ (by omega)).mpr rfl

theorem applyMatch_monday_first (h : Sched) (m : RangeMatch)
    (hstart : dayMapGet (pyLower m.d1) ∈ day_list)
    (hend : (if m.d2.isEmpty then dayMapGet (pyLower m.d1)
      else dayMapGet (pyLower m.d2)) ∈ day_list) :
    ∀ d ∈ days7,
      dictGet (applyMatch h m) d
        = if day_list.indexOf (dayMapGet (pyLower m.d1))
              ≤ day_list.indexOf d ∧
            day_list.indexOf d
              ≤ day_list.indexOf (if m.d2.isEmpty
                  then dayMapGet (pyLower m.d1)
                  else dayMapGet (pyLower m.d2))
          then some (mkOC (convert_to_24h m.t1) (convert_to_24h m.t2))
          else dictGet h d := by
  intro d hd
  rw [applyMatch]
  have hc : (day_list.contains (dayMapGet (pyLower m.d1)) &&
      day_list.contains (if m.d2.isEmpty then dayMapGet (pyLower m.d1)
        else dayMapGet (pyLower m.d2))) = true := by
    rw [Bool.and_eq_true]
    exact ⟨List.elem_eq_true_of_mem hstart, List.elem_eq_true_of_mem hend⟩
  rw [if_pos hc, foldl_setdays_dictGet]
  rw [if_congr (range'_getD_exists_iff
    (day_list_index_lt_seven _ hend) hd) rfl rfl]

/-- C3 (amended): day-range expansion in `parse_hours` uses the fixed
**Monday = 0 … Sunday = 6** ordering (not Sunday-first as the spec says),
with no wraparound past the week boundary: a matched range applied to a
schedule sets exactly the weekdays whose Monday-first index lies between
the start day's and the end day's index inclusive, leaving all other days
untouched.  The first conjunct identifies the code's index with the
Monday-first ordering; the third evaluates `parse_hours` on every pair of
full day names. -/
theorem parse_hours_range_monday_first :
    (∀ d ∈ days7, day_list.indexOf d = mondayOrder.indexOf d) ∧
    (∀ (h : Sched) (m : RangeMatch),
      dayMapGet (pyLower m.d1) ∈ day_list →
      (if m.d2.isEmpty then dayMapGet (pyLower m.d1)
        else dayMapGet (pyLower m.d2)) ∈ day_list →
      ∀ d ∈ days7,
        dictGet (applyMatch h m) d
          = if day_list.indexOf (dayMapGet (pyLower m.d1))
                ≤ day_list.indexOf d ∧
              day_list.indexOf d
                ≤ day_list.indexOf (if m.d2.isEmpty
                    then dayMapGet (pyLower m.d1)
                    else dayMapGet (pyLower m.d2))
            then some (mkOC (convert_to_24h m.t1) (convert_to_24h m.t2))
            else dictGet h d) ∧
    (∀ sd ∈ fullDayNames, ∀ ed ∈ fullDayNames,
      parse_hours (sd ++ "-" ++ ed ++ ": 9:00 AM - 5:00 PM")
        = days7.map (fun d =>
            (d, if mondayOrder.indexOf (pyLower sd) ≤ mondayOrder.indexOf d ∧
                  mondayOrder.indexOf d ≤ mondayOrder.indexOf (pyLower ed)
                then mkOC "09:00" "17:00" else mkOC "" ""))) :=
  ⟨by decide, applyMatch_monday_first, by decide⟩

/-- Witness for C3 (amended) at the concrete range `Sat-Sun 10:00AM-2:00PM`
applied to the empty schedule. -/
theorem parse_hours_range_monday_first_witness :
    dayMapGet (pyLower "Sat") ∈ day_list ∧
    "Monday" ∈ fullDayNames ∧
    dictGet (applyMatch initHours ⟨"Sat", "Sun", "10:00AM", "2:00PM"⟩)
        "saturday" = some (mkOC "10:00" "14:00") ∧
    parse_hours "Monday-Friday: 9:00 AM - 5:00 PM"
      = days7.map (fun d =>
          (d, if mondayOrder.indexOf (pyLower "Monday")
                  ≤ mondayOrder.indexOf d ∧
                mondayOrder.indexOf d
                  ≤ mondayOrder.indexOf (pyLower "Friday")
              then mkOC "09:00" "17:00" else mkOC "" "")) := by
  refine ⟨by decide, by decide, ?_, ?_⟩
  · rw [parse_hours_range_monday_first.2.1 initHours
      ⟨"Sat", "Sun", "10:00AM", "2:00PM"⟩ (by decide) (by decide)
      "saturday" (by decide)]
    decide
  · exact parse_hours_range_monday_first.2.2 "Monday" (by decide)
      "Friday" (by decide)

end SudBedwatch
